import Mathlib

/-!
Verification development for the BuyhatkeTrackBot repository.

The repository ships a single Python source file, `src/main.py`, a Telegram
price-tracker bot.  Its spec additionally describes an anonymous pairing and
message-relay engine (WaitingPool, SessionDirectory, PairingCoordinator,
RelayRouter, LifecycleManager) whose code is not present under `src/`;
that engine is modelled here from the spec, while everything that does exist
in `src/main.py` (`extract_price`, `handle_text`, `check_prices_job` and the
call sites they contain) is embedded directly from the source.

Prices are modelled as rationals: the Python code only parses, stores and
compares prices (no rounding arithmetic), so the order-theoretic and
truthiness behaviour relevant to the claims is preserved exactly.
-/

/-! ## Part 1: the pairing and relay engine, modelled from the spec -/

abbrev UserId := Nat

/-- Modelled from the spec: a WaitingPool entry `{user, enqueue timestamp,
priority tier}` (spec section 3); the pool code itself is absent from `src/`. -/
structure WaitingEntry where
  user : UserId
  tier : Nat
  ts : Nat
deriving DecidableEq

/-- Modelled from the spec: the joint state store owned by WaitingPool and
SessionDirectory (spec sections 2, 3 and 9).  `pool` is kept in insertion
order (enqueue appends at the tail), `sessions` is the set of active pairs,
and `clock` supplies fresh enqueue timestamps. -/
structure EngineState where
  pool : List WaitingEntry
  sessions : List (UserId × UserId)
  clock : Nat
deriving DecidableEq

def initState : EngineState := ⟨[], [], 0⟩

/-- Modelled from the spec: `WaitingPool.contains` (spec section 4.1). -/
def waiting (s : EngineState) (u : UserId) : Bool :=
  s.pool.any (fun e => e.user == u)

/-- The flattened list of all session participants. -/
def sessionUsersL : List (UserId × UserId) → List UserId
  | [] => []
  | (a, b) :: rest => a :: b :: sessionUsersL rest

/-- Lookup of a user's partner in a list of pairs (first pair containing the
user wins, mirroring the mirrored two-way map described in spec section 9). -/
def lookupIn : List (UserId × UserId) → UserId → Option UserId
  | [], _ => none
  | (a, b) :: rest, u =>
    if a = u then some b else if b = u then some a else lookupIn rest u

/-- Modelled from the spec: `SessionDirectory.lookupPartner` (spec section 4.3). -/
def lookupPartner (s : EngineState) (u : UserId) : Option UserId :=
  lookupIn s.sessions u

/-- A user is InSession exactly when a partner lookup succeeds. -/
def inSession (s : EngineState) (u : UserId) : Bool :=
  (lookupPartner s u).isSome

/-- Remove (and return) the first list element satisfying `P`, together with
the remaining list. -/
def extractFirst {α : Type} (P : α → Bool) : List α → Option (α × List α)
  | [] => none
  | x :: rest =>
    if P x then some (x, rest)
    else
      match extractFirst P rest with
      | some (y, l) => some (y, x :: l)
      | none => none

/-- The highest priority tier present in the pool (0 when empty). -/
def maxTier (pool : List WaitingEntry) : Nat :=
  pool.foldr (fun e m => max e.tier m) 0

/-- Modelled from the spec: `WaitingPool.popCandidate` (spec section 4.1) —
removes and returns the oldest entry of the highest non-empty tier; since the
pool list is kept in insertion order, the oldest entry of a tier is the first
entry of that tier. -/
def popCandidate (pool : List WaitingEntry) :
    Option (WaitingEntry × List WaitingEntry) :=
  extractFirst (fun e => e.tier == maxTier pool) pool

inductive PairResult
  | paired (partner : UserId)
  | entersWait
  | errAlreadyWaiting
  | errAlreadyInSession
deriving DecidableEq

/-- Modelled from the spec: `PairingCoordinator.requestPairing` (spec
section 4.2) — reject non-Idle users, otherwise pop a candidate and form a
session, or enqueue the requester at the tail of its tier. -/
def requestPairing (s : EngineState) (u : UserId) (tier : Nat) :
    PairResult × EngineState :=
  if waiting s u then (.errAlreadyWaiting, s)
  else if inSession s u then (.errAlreadyInSession, s)
  else
    match popCandidate s.pool with
    | some (e, rest) =>
      (.paired e.user, { s with pool := rest, sessions := (e.user, u) :: s.sessions })
    | none =>
      (.entersWait, { s with pool := s.pool ++ [⟨u, tier, s.clock⟩], clock := s.clock + 1 })

inductive CancelResult
  | leftQueue
  | notActive
deriving DecidableEq

/-- Modelled from the spec: `WaitingPool.remove` driven by the `Cancel`
command (spec sections 4.1 and 6): idempotent cancellation, `NotActive`
no-op when the user is not waiting. -/
def cancel (s : EngineState) (u : UserId) : CancelResult × EngineState :=
  if waiting s u then (.leftQueue, { s with pool := s.pool.filter (fun e => e.user != u) })
  else (.notActive, s)

/-- Modelled from the spec: `SessionDirectory.end` (spec section 4.3) —
removes the mapping for the user and its partner together. -/
def endSession (s : EngineState) (u : UserId) : EngineState :=
  { s with sessions := s.sessions.filter (fun p => p.1 != u && p.2 != u) }

inductive StopResult
  | leftQueue
  | chatEnded (partner : UserId)
  | notActive
deriving DecidableEq

/-- Modelled from the spec: `LifecycleManager.stop` (spec section 4.5). -/
def stop (s : EngineState) (u : UserId) : StopResult × EngineState :=
  if waiting s u then (.leftQueue, { s with pool := s.pool.filter (fun e => e.user != u) })
  else
    match lookupPartner s u with
    | some p => (.chatEnded p, endSession s u)
    | none => (.notActive, s)

inductive RelayResult
  | delivered (partner : UserId)
  | errNotInSession
  | deliveryFailure (partner : UserId)
deriving DecidableEq

/-- Modelled from the spec: `RelayRouter.relay` for the `SendMessage`
command (spec section 4.4); `deliveryOk` is the outcome of the external
delivery collaborator, `false` covering both failure and timeout, which the
spec treats identically — teardown via `endOnFailure`, then report
`DeliveryFailure`. -/
def sendMessage (s : EngineState) (u : UserId) (deliveryOk : Bool) :
    RelayResult × EngineState :=
  match lookupPartner s u with
  | none => (.errNotInSession, s)
  | some p =>
    if deliveryOk then (.delivered p, s)
    else (.deliveryFailure p, endSession s u)

/-- States reachable from the empty initial state by the command surface
`RequestPairing`, `Cancel`, `Stop`, `SendMessage` (spec section 6). -/
inductive Reachable : EngineState → Prop
  | init : Reachable initState
  | pair (s : EngineState) (u : UserId) (t : Nat) :
      Reachable s → Reachable (requestPairing s u t).2
  | cancelStep (s : EngineState) (u : UserId) :
      Reachable s → Reachable (cancel s u).2
  | stopStep (s : EngineState) (u : UserId) :
      Reachable s → Reachable (stop s u).2
  | send (s : EngineState) (u : UserId) (ok : Bool) :
      Reachable s → Reachable (sendMessage s u ok).2

/-- Well-formedness of the joint store: no duplicate waiting users, no user
in two sessions (nor paired with itself), pool and sessions disjoint, pool
in timestamp order with all timestamps below the clock. -/
structure WF (s : EngineState) : Prop where
  hpool : (s.pool.map WaitingEntry.user).Nodup
  hsess : (sessionUsersL s.sessions).Nodup
  hdisj : ∀ u, u ∈ s.pool.map WaitingEntry.user → u ∉ sessionUsersL s.sessions
  hsort : s.pool.Pairwise (fun a b => a.ts ≤ b.ts)
  hclock : ∀ e ∈ s.pool, e.ts < s.clock

/-! ## Part 2: the price-tracker code of `src/main.py` -/

/-- Python `str` whitespace, as used by `str.strip()` and by the regex
class `\s` (ASCII fragment). -/
def pySpace (c : Char) : Bool :=
  c = ' ' || c = '\t' || c = '\n' || c = '\r' || c = '\x0b' || c = '\x0c'

/-- Python `str.strip()` on a character list. -/
def pyStripL (l : List Char) : List Char :=
  ((l.dropWhile pySpace).reverse.dropWhile pySpace).reverse

/-- Python `str.strip()`. -/
def pyStrip (s : String) : String :=
  ⟨pyStripL s.data⟩

/-- Does the second list occur as a leading segment of the first? -/
def startsWithL : List Char → List Char → Bool
  | _, [] => true
  | [], _ :: _ => false
  | c :: cs, p :: ps => c = p && startsWithL cs ps

/-- Python substring containment (`pat in s`) on character lists. -/
def containsSubL : List Char → List Char → Bool
  | [], pat => pat.isEmpty
  | c :: cs, pat => startsWithL (c :: cs) pat || containsSubL cs pat

/-- Python `str.lower()` on a character list (the URLs involved are ASCII). -/
def lowerL (l : List Char) : List Char :=
  l.map Char.toLower

/-- Python `str.lower()`. -/
def lowerS (s : String) : String :=
  ⟨lowerL s.data⟩

/-- Substring containment on strings, `pat in s` for Python `str`. -/
def containsS (s pat : String) : Bool :=
  containsSubL s.data pat.data

/-- The regex `https?://[^\s]+` of `main.py` line 182, anchored at the head
of `l`: the scheme followed by a maximal non-empty run of non-whitespace. -/
def urlFrom (l : List Char) : Option (List Char) :=
  if startsWithL l "https://".data then
    let body := (l.drop 8).takeWhile (fun c => !pySpace c)
    if body.isEmpty then none else some ("https://".data ++ body)
  else if startsWithL l "http://".data then
    let body := (l.drop 7).takeWhile (fun c => !pySpace c)
    if body.isEmpty then none else some ("http://".data ++ body)
  else none

/-- `url_pattern.search(text)` followed by `match.group(0)`: the leftmost
match of `https?://[^\s]+` in the text (`main.py` lines 182-186). -/
def findUrlL : List Char → Option (List Char)
  | [] => none
  | c :: rest =>
    match urlFrom (c :: rest) with
    | some u => some u
    | none => findUrlL rest

/-- Every starting position of the text yields at most one regex match;
`anyUrlSat P t` asks whether some position carries a match satisfying `P`.
Used to state the claim-level notion "the text contains an http(s) URL
such that ...". -/
def anyUrlSat (P : List Char → Bool) : List Char → Bool
  | [] => false
  | c :: rest =>
    (match urlFrom (c :: rest) with
     | some u => P u
     | none => false) || anyUrlSat P rest

/-- Platform classification of `main.py` lines 187-195: the lowercased URL
is tested for "amazon"/"amzn" first, then "flipkart"/"fktr"; anything else
is rejected. -/
def platformOf (url : List Char) : Option String :=
  if containsSubL (lowerL url) "amazon".data || containsSubL (lowerL url) "amzn".data then
    some "Amazon"
  else if containsSubL (lowerL url) "flipkart".data || containsSubL (lowerL url) "fktr".data then
    some "Flipkart"
  else none

/-- Does a URL classify as amazon (`main.py` line 189)? -/
def amazonish (url : List Char) : Bool :=
  containsSubL (lowerL url) "amazon".data || containsSubL (lowerL url) "amzn".data

/-- Does a URL classify as flipkart (`main.py` line 191)? -/
def flipkartish (url : List Char) : Bool :=
  containsSubL (lowerL url) "flipkart".data || containsSubL (lowerL url) "fktr".data

/-- A URL is recognized when either platform test succeeds. -/
def recognizedUrl (u : List Char) : Bool :=
  (platformOf u).isSome

/-- A row of the `trackers` table (`main.py` lines 45-53). -/
structure TrackerRow where
  id : Nat
  user_id : Nat
  url : String
  target_price : ℚ
  platform : String
deriving DecidableEq

/-- The `trackers` table with the AUTOINCREMENT counter. -/
structure Db where
  rows : List TrackerRow
  nextId : Nat
deriving DecidableEq

/-- Python float truthiness: `0.0` (and `-0.0`) are falsy. -/
def truthyF (p : ℚ) : Bool :=
  p != 0

/-- Truthiness of an optional price as tested by `if current_price:` —
a missing price (`None`) and a price of `0.0` are both falsy. -/
def displayPrice : Option ℚ → Option ℚ
  | none => none
  | some p => if p = 0 then none else some p

/-- The replies `handle_text` can produce, abstracted to their identity and
the data interpolated into them.  `confirmation`/`prompt` carry the price
actually shown: `none` selects the message text that omits the current
price ("could not fetch the live price"). -/
inductive Reply
  | syntaxError
  | rejection
  | awaitingInput
  | confirmation (platform : String) (target : ℚ) (shownPrice : Option ℚ)
  | prompt (platform : String) (shownPrice : Option ℚ)
deriving DecidableEq

/-- The per-user `context.user_data` dict: `handle_text` either leaves it
cleared (`idle`) or stores exactly the keys `awaiting_price = True`,
`pending_url`, `pending_platform`, `current_price` (`main.py` lines
200-204, cleared at line 174). -/
inductive UserData
  | idle
  | awaiting (pending_url : String) (pending_platform : String) (current_price : Option ℚ)
deriving DecidableEq

/-- External behaviour reaching `handle_text`: the Python builtin
`float(text)` (`none` models `ValueError`) and the scraper outcome
`extract_price(url)` as observed by this handler. -/
structure HandleEnv where
  pyFloat : String → Option ℚ
  scrape : String → Option ℚ

/-- `handle_text` of `main.py` lines 141-218: Phase 1 stores a tracker when
a target price is awaited and parses, Phase 2 classifies a pasted URL and
locks the state machine, Phase 3 rejects unrecognized input.  The
"Initializing handshake" message and its later edit are collapsed into the
single final prompt the user is left with. -/
def handle_text (env : HandleEnv) (user_id : Nat) (rawText : String)
    (ud : UserData) (db : Db) : UserData × Db × List Reply :=
  match ud with
  | .awaiting url platform price =>
    match env.pyFloat (pyStrip rawText) with
    | some target =>
      (.idle,
       ⟨db.rows ++ [⟨db.nextId, user_id, url, target, platform⟩], db.nextId + 1⟩,
       [.confirmation platform target (displayPrice price)])
    | none => (.awaiting url platform price, db, [.syntaxError])
  | .idle =>
    match findUrlL (pyStrip rawText).data with
    | some urlL =>
      match platformOf urlL with
      | some platform =>
        (.awaiting ⟨urlL⟩ platform (env.scrape ⟨urlL⟩), db,
         [.prompt platform (displayPrice (env.scrape ⟨urlL⟩))])
      | none => (.idle, db, [.rejection])
    | none => (.idle, db, [.awaitingInput])

/-- Is the per-user state the awaiting-price state? -/
def isAwaiting : UserData → Bool
  | .idle => false
  | .awaiting _ _ _ => true

/-- The parsed HTTP response as `extract_price` observes it: the final URL
after redirects, whether `raise_for_status` passes, and the text of the
elements the three BeautifulSoup heuristics locate (`main.py` lines
92-110). -/
structure HttpResponse where
  url : String
  statusOk : Bool
  amazonWholeSpan : Option String
  flipkartClassDiv : Option String
  flipkartRupeeDiv : Option String

/-- External behaviour reaching `extract_price`: the outcome of
`session.get` (`Except.error` models a raised `RequestException`,
timeouts included) and the Python builtin `float` on the sanitized price
text (`Except.error` models a raised `ValueError`). -/
structure FetchEnv where
  getResult : Except String HttpResponse
  pyFloat : String → Except String ℚ

/-- `re.sub(r'[^\d.]', '', price_text)` of `main.py` line 114. -/
def cleanPrice (s : String) : String :=
  ⟨s.data.filter (fun c => c.isDigit || c = '.')⟩

/-- The heuristic cascade of `main.py` lines 92-110 selecting `price_text`
from the parsed response. -/
def findPriceText (resp : HttpResponse) : Option String :=
  if containsS (lowerS resp.url) "amazon" || containsS (lowerS resp.url) "amzn" then
    resp.amazonWholeSpan
  else if containsS (lowerS resp.url) "flipkart" || containsS (lowerS resp.url) "fktr" then
    match resp.flipkartClassDiv with
    | some t => some t
    | none => resp.flipkartRupeeDiv
  else none

/-- The `try` block of `extract_price` (`main.py` lines 83-118) in an
explicit exception monad: `session.get`, `raise_for_status` and `float`
may throw; `if price_text:` is false both for a missing element and for an
empty text. -/
def extractPriceRun (env : FetchEnv) : Except String (Option ℚ) :=
  match env.getResult with
  | .error e => .error e
  | .ok resp =>
    if resp.statusOk then
      match findPriceText resp with
      | some t =>
        if t = "" then .ok none
        else
          match env.pyFloat (cleanPrice t) with
          | .ok v => .ok (some v)
          | .error e => .error e
      | none => .ok none
    else .error "HTTPError"

/-- The whole of `extract_price` including its two `except` clauses
(`main.py` lines 120-125), which both log and return `None`. -/
def extractPriceFull (env : FetchEnv) : Except String (Option ℚ) :=
  match extractPriceRun env with
  | .ok v => .ok v
  | .error _ => .ok none

/-- `extract_price` as its callers see it: a float or `None`, never an
exception. -/
def extract_price (env : FetchEnv) : Option ℚ :=
  match extractPriceRun env with
  | .ok v => v
  | .error _ => none

/-- External behaviour reaching `check_prices_job`: the scraper outcome per
URL for this cycle (`extract_price` returns a float or `None`, never
raises) and whether `context.bot.send_message` succeeds per tracker row. -/
structure JobEnv where
  scrape : String → Option ℚ
  sendOk : Nat → Bool

/-- `if current_price and current_price <= target:` of `main.py` line 253 —
`None` and `0.0` are falsy and short-circuit the comparison. -/
def alertCond (cp : Option ℚ) (target : ℚ) : Bool :=
  match cp with
  | none => false
  | some p => truthyF p && decide (p ≤ target)

/-- The `try` body of one loop iteration (`main.py` lines 260-264):
`send_message` may throw; only after it returns is the row deleted and the
deletion committed. -/
def deliverAndPurge (env : JobEnv) (st : List TrackerRow × List Nat)
    (row : TrackerRow) : Except String (List TrackerRow × List Nat) :=
  if env.sendOk row.id then
    .ok (st.1.filter (fun r => r.id != row.id), st.2 ++ [row.id])
  else .error "delivery failed"

/-- One iteration of the `check_prices_job` loop (`main.py` lines 249-266)
in the exception monad: the `except Exception` clause at line 265 catches
any throw from the `try` body, logs, and leaves the state as it was. -/
def processTrackerRun (env : JobEnv) (st : List TrackerRow × List Nat)
    (row : TrackerRow) : Except String (List TrackerRow × List Nat) :=
  if alertCond (env.scrape row.url) row.target_price then
    match deliverAndPurge env st row with
    | .ok st2 => .ok st2
    | .error _ => .ok st
  else .ok st

/-- One loop iteration as the surrounding loop sees it. -/
def processTracker (env : JobEnv) (st : List TrackerRow × List Nat)
    (row : TrackerRow) : List TrackerRow × List Nat :=
  match processTrackerRun env st row with
  | .ok st2 => st2
  | .error _ => st

/-- `check_prices_job` of `main.py` lines 241-266: fetch every tracker row,
then iterate; returns the resulting table contents together with the ids of
the rows whose alert was sent. -/
def check_prices_job (env : JobEnv) (trackers : List TrackerRow) :
    List TrackerRow × List Nat :=
  trackers.foldl (processTracker env) (trackers, [])

/-- Whether one pass over `row` sends its alert and purges it. -/
def delFlag (env : JobEnv) (row : TrackerRow) : Bool :=
  alertCond (env.scrape row.url) row.target_price && env.sendOk row.id

/-- A point in `main.py` where execution suspends awaiting an external
collaborator, with the timeout explicitly passed at that call site, if
any. -/
structure SuspensionPoint where
  location : String
  explicitTimeout : Option ℚ
deriving DecidableEq

/-- The suspension points of `main.py`: the scraper's HTTP GET (line 85,
`timeout=20`), the SQLite connections (lines 44, 154, 224, 245), and the
Telegram deliveries (lines 139, 173/178, 197/214, 229/236, 261), none of
which pass a timeout argument. -/
def suspensionPoints : List SuspensionPoint :=
  [⟨"extract_price:session.get", some 20⟩,
   ⟨"init_db:aiosqlite.connect", none⟩,
   ⟨"handle_text:aiosqlite.connect", none⟩,
   ⟨"list_command:aiosqlite.connect", none⟩,
   ⟨"check_prices_job:aiosqlite.connect", none⟩,
   ⟨"start_command:reply_text", none⟩,
   ⟨"handle_text:reply_text", none⟩,
   ⟨"handle_text:edit_text", none⟩,
   ⟨"list_command:reply_text", none⟩,
   ⟨"check_prices_job:bot.send_message", none⟩]

/-! ## Part 3: helper lemmas -/

theorem mem_sessionUsersL {l : List (UserId × UserId)} {u : UserId} :
    u ∈ sessionUsersL l ↔ ∃ p ∈ l, p.1 = u ∨ p.2 = u := by
  induction l with
  | nil => simp [sessionUsersL]
  | cons p rest ih =>
    obtain ⟨a, b⟩ := p
    simp only [sessionUsersL, List.mem_cons, ih]
    constructor
    · rintro (rfl | rfl | ⟨q, hq, h⟩)
      · exact ⟨(u, b), Or.inl rfl, Or.inl rfl⟩
      · exact ⟨(a, u), Or.inl rfl, Or.inr rfl⟩
      · exact ⟨q, Or.inr hq, h⟩
    · rintro ⟨q, (rfl | hq), (h | h)⟩
      · exact Or.inl h.symm
      · exact Or.inr (Or.inl h.symm)
      · exact Or.inr (Or.inr ⟨q, hq, Or.inl h⟩)
      · exact Or.inr (Or.inr ⟨q, hq, Or.inr h⟩)

theorem lookupIn_mem {l : List (UserId × UserId)} {u v : UserId}
    (h : lookupIn l u = some v) : (u, v) ∈ l ∨ (v, u) ∈ l := by
  induction l with
  | nil => simp [lookupIn] at h
  | cons p rest ih =>
    obtain ⟨a, b⟩ := p
    simp only [lookupIn] at h
    by_cases ha : a = u
    · subst ha
      rw [if_pos rfl] at h
      obtain rfl := Option.some.inj h
      exact Or.inl (List.mem_cons_self _ _)
    · rw [if_neg ha] at h
      by_cases hb : b = u
      · subst hb
        rw [if_pos rfl] at h
        obtain rfl := Option.some.inj h
        exact Or.inr (List.mem_cons_self _ _)
      · rw [if_neg hb] at h
        rcases ih h with h1 | h1
        · exact Or.inl (List.mem_cons_of_mem _ h1)
        · exact Or.inr (List.mem_cons_of_mem _ h1)

theorem lookupIn_none_of_not_mem {l : List (UserId × UserId)} {u : UserId}
    (h : u ∉ sessionUsersL l) : lookupIn l u = none := by
  induction l with
  | nil => rfl
  | cons p rest ih =>
    obtain ⟨a, b⟩ := p
    simp only [sessionUsersL, List.mem_cons, not_or] at h
    obtain ⟨ha, hb, hrest⟩ := h
    have ha2 : a ≠ u := fun hh => ha hh.symm
    have hb2 : b ≠ u := fun hh => hb hh.symm
    simp only [lookupIn]
    rw [if_neg ha2, if_neg hb2]
    exact ih hrest

theorem lookupIn_isSome_of_mem {l : List (UserId × UserId)} {u : UserId}
    (h : u ∈ sessionUsersL l) : (lookupIn l u).isSome := by
  induction l with
  | nil => simp [sessionUsersL] at h
  | cons p rest ih =>
    obtain ⟨a, b⟩ := p
    simp only [sessionUsersL, List.mem_cons] at h
    simp only [lookupIn]
    by_cases ha : a = u
    · simp [ha]
    · rw [if_neg ha]
      by_cases hb : b = u
      · simp [hb]
      · rw [if_neg hb]
        rcases h with h | h | h
        · exact absurd h.symm ha
        · exact absurd h.symm hb
        · exact ih h

theorem lookupIn_of_mem_nodup {l : List (UserId × UserId)} {u v : UserId}
    (hnd : (sessionUsersL l).Nodup) (h : (u, v) ∈ l) :
    lookupIn l u = some v ∧ lookupIn l v = some u := by
  induction l with
  | nil => simp at h
  | cons p rest ih =>
    obtain ⟨a, b⟩ := p
    simp only [sessionUsersL, List.nodup_cons, List.mem_cons, not_or] at hnd
    obtain ⟨⟨hab, haS⟩, hbS, hS⟩ := hnd
    rcases List.mem_cons.mp h with heq | hmem
    · cases heq
      constructor
      · simp [lookupIn]
      · simp only [lookupIn]
        rw [if_neg hab]
        simp
    · have hu : u ∈ sessionUsersL rest :=
        mem_sessionUsersL.mpr ⟨(u, v), hmem, Or.inl rfl⟩
      have hv : v ∈ sessionUsersL rest :=
        mem_sessionUsersL.mpr ⟨(u, v), hmem, Or.inr rfl⟩
      have hau : a ≠ u := fun hh => haS (by rw [hh]; exact hu)
      have hbu : b ≠ u := fun hh => hbS (by rw [hh]; exact hu)
      have hav : a ≠ v := fun hh => haS (by rw [hh]; exact hv)
      have hbv : b ≠ v := fun hh => hbS (by rw [hh]; exact hv)
      obtain ⟨h1, h2⟩ := ih hS hmem
      constructor
      · simp only [lookupIn]
        rw [if_neg hau, if_neg hbu]
        exact h1
      · simp only [lookupIn]
        rw [if_neg hav, if_neg hbv]
        exact h2

theorem sessionUsersL_filter_sublist (P : UserId × UserId → Bool)
    (l : List (UserId × UserId)) :
    (sessionUsersL (l.filter P)).Sublist (sessionUsersL l) := by
  induction l with
  | nil => simp [sessionUsersL]
  | cons p rest ih =>
    obtain ⟨a, b⟩ := p
    by_cases hp : P (a, b)
    · simp only [List.filter_cons, if_pos hp, sessionUsersL]
      exact (ih.cons₂ b).cons₂ a
    · simp only [List.filter_cons, if_neg hp, sessionUsersL]
      exact (ih.cons b).cons a

theorem waiting_iff {s : EngineState} {u : UserId} :
    waiting s u = true ↔ u ∈ s.pool.map WaitingEntry.user := by
  unfold waiting
  rw [List.any_eq_true]
  constructor
  · rintro ⟨e, he, hbe⟩
    exact List.mem_map.mpr ⟨e, he, by simpa using hbe⟩
  · intro h
    obtain ⟨e, he, heq⟩ := List.mem_map.mp h
    exact ⟨e, he, by simp [heq]⟩

theorem inSession_iff {s : EngineState} {u : UserId} :
    inSession s u = true ↔ u ∈ sessionUsersL s.sessions := by
  unfold inSession lookupPartner
  constructor
  · intro h
    obtain ⟨v, hv⟩ := Option.isSome_iff_exists.mp h
    rcases lookupIn_mem hv with hm | hm
    · exact mem_sessionUsersL.mpr ⟨(u, v), hm, Or.inl rfl⟩
    · exact mem_sessionUsersL.mpr ⟨(v, u), hm, Or.inr rfl⟩
  · exact lookupIn_isSome_of_mem

theorem extractFirst_eq_some {α : Type} {P : α → Bool} {l : List α} {e : α}
    {r : List α} (h : extractFirst P l = some (e, r)) :
    ∃ pre post, l = pre ++ e :: post ∧ r = pre ++ post ∧
      (∀ x ∈ pre, P x = false) ∧ P e = true := by
  induction l generalizing r with
  | nil => simp [extractFirst] at h
  | cons x rest ih =>
    simp only [extractFirst] at h
    by_cases hx : P x
    · rw [if_pos hx] at h
      obtain ⟨rfl, rfl⟩ := Prod.ext_iff.mp (Option.some.inj h)
      exact ⟨[], rest, rfl, rfl, by simp, hx⟩
    · rw [if_neg hx] at h
      cases heq : extractFirst P rest with
      | none => rw [heq] at h; exact absurd h (by simp)
      | some yl =>
        obtain ⟨y, l2⟩ := yl
        rw [heq] at h
        simp only at h
        obtain ⟨rfl, rfl⟩ := Prod.ext_iff.mp (Option.some.inj h)
        obtain ⟨pre, post, h1, h2, h3, h4⟩ := ih heq
        refine ⟨x :: pre, post, by rw [List.cons_append, h1], by rw [List.cons_append, h2], ?_, h4⟩
        intro z hz
        rcases List.mem_cons.mp hz with rfl | hz2
        · exact Bool.of_not_eq_true hx
        · exact h3 z hz2

theorem extractFirst_isSome {α : Type} {P : α → Bool} {l : List α}
    (h : ∃ x ∈ l, P x = true) : (extractFirst P l).isSome := by
  induction l with
  | nil => simp at h
  | cons y rest ih =>
    obtain ⟨x, hx, hPx⟩ := h
    simp only [extractFirst]
    by_cases hy : P y
    · rw [if_pos hy]; rfl
    · rw [if_neg hy]
      rcases List.mem_cons.mp hx with rfl | h2
      · exact absurd hPx hy
      · have hs := ih ⟨x, h2, hPx⟩
        cases heq : extractFirst P rest with
        | none => rw [heq] at hs; simp at hs
        | some yl =>
          obtain ⟨a, b⟩ := yl
          simp

theorem tier_le_maxTier {pool : List WaitingEntry} {x : WaitingEntry}
    (h : x ∈ pool) : x.tier ≤ maxTier pool := by
  induction pool with
  | nil => simp at h
  | cons y rest ih =>
    simp only [maxTier, List.foldr_cons] at *
    rcases List.mem_cons.mp h with rfl | h2
    · exact Nat.le_max_left _ _
    · exact Nat.le_trans (ih h2) (Nat.le_max_right _ _)

theorem maxTier_attained {pool : List WaitingEntry} (h : pool ≠ []) :
    ∃ x ∈ pool, x.tier = maxTier pool := by
  induction pool with
  | nil => exact absurd rfl h
  | cons y rest ih =>
    cases rest with
    | nil =>
      refine ⟨y, List.mem_cons_self _ _, ?_⟩
      simp [maxTier]
    | cons z rest2 =>
      obtain ⟨x, hx, hxt⟩ := ih (by simp)
      have hunf : maxTier (y :: z :: rest2) = max y.tier (maxTier (z :: rest2)) := rfl
      rcases Nat.le_total y.tier (maxTier (z :: rest2)) with hle | hle
      · refine ⟨x, List.mem_cons_of_mem _ hx, ?_⟩
        rw [hunf, Nat.max_eq_right hle]
        exact hxt
      · exact ⟨y, List.mem_cons_self _ _, by rw [hunf, Nat.max_eq_left hle]⟩

theorem popCandidate_isSome {pool : List WaitingEntry} (h : pool ≠ []) :
    (popCandidate pool).isSome := by
  obtain ⟨x, hx, hxt⟩ := maxTier_attained h
  exact extractFirst_isSome ⟨x, hx, by simp [hxt]⟩

theorem popCandidate_spec {pool : List WaitingEntry} {e : WaitingEntry}
    {r : List WaitingEntry} (h : popCandidate pool = some (e, r)) :
    ∃ pre post, pool = pre ++ e :: post ∧ r = pre ++ post ∧
      e.tier = maxTier pool ∧ ∀ x ∈ pre, x.tier ≠ maxTier pool := by
  obtain ⟨pre, post, h1, h2, h3, h4⟩ := extractFirst_eq_some h
  refine ⟨pre, post, h1, h2, by simpa using h4, fun x hx => ?_⟩
  have := h3 x hx
  simpa using this

theorem wf_filterPool {s : EngineState} (q : WaitingEntry → Bool) (h : WF s) :
    WF { s with pool := s.pool.filter q } := by
  have hsub : (s.pool.filter q).Sublist s.pool := List.filter_sublist _
  refine ⟨h.hpool.sublist (hsub.map _), h.hsess, ?_, h.hsort.sublist hsub, ?_⟩
  · intro v hv
    exact h.hdisj v ((hsub.map _).subset hv)
  · intro e he
    exact h.hclock e (hsub.subset he)

theorem wf_filterSessions {s : EngineState} (q : UserId × UserId → Bool) (h : WF s) :
    WF { s with sessions := s.sessions.filter q } := by
  have hsub := sessionUsersL_filter_sublist q s.sessions
  refine ⟨h.hpool, h.hsess.sublist hsub, ?_, h.hsort, h.hclock⟩
  intro v hv hvs
  exact h.hdisj v hv (hsub.subset hvs)

theorem wf_endSession {s : EngineState} (u : UserId) (h : WF s) :
    WF (endSession s u) :=
  wf_filterSessions _ h

theorem wf_requestPairing (s : EngineState) (u : UserId) (t : Nat) (h : WF s) :
    WF (requestPairing s u t).2 := by
  unfold requestPairing
  by_cases hw : waiting s u = true
  · rw [if_pos hw]
    exact h
  · rw [if_neg hw]
    by_cases hi : inSession s u = true
    · rw [if_pos hi]
      exact h
    · rw [if_neg hi]
      have hupool : u ∉ s.pool.map WaitingEntry.user := fun hm => hw (waiting_iff.mpr hm)
      have husess : u ∉ sessionUsersL s.sessions := fun hm => hi (inSession_iff.mpr hm)
      cases hpc : popCandidate s.pool with
      | none =>
        simp only
        constructor
        · rw [List.map_append, List.nodup_append]
          refine ⟨h.hpool, List.nodup_singleton u, fun a ha hb => ?_⟩
          simp only [List.map_cons, List.map_nil, List.mem_singleton] at hb
          exact hupool (hb ▸ ha)
        · exact h.hsess
        · intro v hv
          rw [List.map_append] at hv
          rcases List.mem_append.mp hv with hv1 | hv1
          · exact h.hdisj v hv1
          · simp only [List.map_cons, List.map_nil, List.mem_singleton] at hv1
            exact hv1 ▸ husess
        · rw [List.pairwise_append]
          refine ⟨h.hsort, List.pairwise_singleton _ _, fun a ha b hb => ?_⟩
          simp only [List.mem_singleton] at hb
          subst hb
          exact Nat.le_of_lt (h.hclock a ha)
        · intro e he
          rcases List.mem_append.mp he with he1 | he1
          · exact Nat.lt_trans (h.hclock e he1) (Nat.lt_succ_self _)
          · simp only [List.mem_singleton] at he1
            subst he1
            exact Nat.lt_succ_self _
      | some er =>
        obtain ⟨e, rest⟩ := er
        obtain ⟨pre, post, h1, h2, _, _⟩ := popCandidate_spec hpc
        have hsubrest : rest.Sublist s.pool := by
          rw [h1, h2]
          exact List.Sublist.append_left (List.sublist_cons_self _ _) pre
        have hperm : List.Perm (s.pool.map WaitingEntry.user)
            (e.user :: rest.map WaitingEntry.user) := by
          rw [h1, h2, List.map_append, List.map_append, List.map_cons]
          exact List.perm_middle
        have hnodup2 : (e.user :: rest.map WaitingEntry.user).Nodup :=
          hperm.nodup h.hpool
        have heurest : e.user ∉ rest.map WaitingEntry.user :=
          (List.nodup_cons.mp hnodup2).1
        have heupool : e.user ∈ s.pool.map WaitingEntry.user :=
          hperm.mem_iff.mpr (List.mem_cons_self _ _)
        have heune : e.user ≠ u := fun hh => hupool (hh ▸ heupool)
        have heusess : e.user ∉ sessionUsersL s.sessions := h.hdisj e.user heupool
        simp only
        constructor
        · exact (List.nodup_cons.mp hnodup2).2
        · show (e.user :: u :: sessionUsersL s.sessions).Nodup
          rw [List.nodup_cons, List.nodup_cons]
          refine ⟨?_, husess, h.hsess⟩
          intro hmem
          rcases List.mem_cons.mp hmem with hh | hh
          · exact heune hh
          · exact heusess hh
        · intro v hv
          show v ∉ e.user :: u :: sessionUsersL s.sessions
          have hvpool : v ∈ s.pool.map WaitingEntry.user := (hsubrest.map _).subset hv
          intro hmem
          rcases List.mem_cons.mp hmem with hh | hh
          · exact heurest (hh ▸ hv)
          · rcases List.mem_cons.mp hh with hh2 | hh2
            · exact hupool (hh2 ▸ hvpool)
            · exact h.hdisj v hvpool hh2
        · exact h.hsort.sublist hsubrest
        · intro x hx
          exact h.hclock x (hsubrest.subset hx)

theorem wf_cancel (s : EngineState) (u : UserId) (h : WF s) : WF (cancel s u).2 := by
  unfold cancel
  by_cases hw : waiting s u = true
  · rw [if_pos hw]
    exact wf_filterPool _ h
  · rw [if_neg hw]
    exact h

theorem wf_stop (s : EngineState) (u : UserId) (h : WF s) : WF (stop s u).2 := by
  unfold stop
  by_cases hw : waiting s u = true
  · rw [if_pos hw]
    exact wf_filterPool _ h
  · rw [if_neg hw]
    cases hl : lookupPartner s u with
    | none => exact h
    | some p => exact wf_endSession u h

theorem wf_sendMessage (s : EngineState) (u : UserId) (ok : Bool) (h : WF s) :
    WF (sendMessage s u ok).2 := by
  unfold sendMessage
  cases hl : lookupPartner s u with
  | none => exact h
  | some p =>
    cases ok with
    | true => exact h
    | false => exact wf_endSession u h

theorem reachable_wf {s : EngineState} (h : Reachable s) : WF s := by
  induction h with
  | init =>
    refine ⟨?_, ?_, ?_, ?_, ?_⟩ <;> simp [initState, sessionUsersL]
  | pair s u t _ ih => exact wf_requestPairing s u t ih
  | cancelStep s u _ ih => exact wf_cancel s u ih
  | stopStep s u _ ih => exact wf_stop s u ih
  | send s u ok _ ih => exact wf_sendMessage s u ok ih

theorem popCandidate_fifo {pool : List WaitingEntry} {e : WaitingEntry}
    {r : List WaitingEntry} (hsort : pool.Pairwise (fun a b => a.ts ≤ b.ts))
    (h : popCandidate pool = some (e, r)) :
    ∀ x ∈ pool, x.tier = e.tier → e.ts ≤ x.ts := by
  obtain ⟨pre, post, h1, h2, h3, h4⟩ := popCandidate_spec h
  subst h1
  intro x hx hxt
  rcases List.mem_append.mp hx with hpre | hrest
  · exact absurd (hxt.trans h3) (h4 x hpre)
  · rcases List.mem_cons.mp hrest with rfl | hpost
    · exact Nat.le_refl _
    · have hp2 := (List.pairwise_append.mp hsort).2.1
      exact (List.pairwise_cons.mp hp2).1 x hpost

theorem pair_ne_of_nodup {l : List (UserId × UserId)}
    (hnd : (sessionUsersL l).Nodup) {a b : UserId} (h : (a, b) ∈ l) : a ≠ b := by
  induction l with
  | nil => simp at h
  | cons p rest ih =>
    obtain ⟨x, y⟩ := p
    simp only [sessionUsersL, List.nodup_cons, List.mem_cons, not_or] at hnd
    obtain ⟨⟨hxy, hxS⟩, hyS, hS⟩ := hnd
    rcases List.mem_cons.mp h with heq | hm
    · cases heq; exact hxy
    · exact ih hS hm

theorem unique_pair_of_nodup {l : List (UserId × UserId)}
    (hnd : (sessionUsersL l).Nodup) {q1 q2 : UserId × UserId} {v : UserId}
    (h1 : q1 ∈ l) (h2 : q2 ∈ l)
    (hv1 : q1.1 = v ∨ q1.2 = v) (hv2 : q2.1 = v ∨ q2.2 = v) : q1 = q2 := by
  induction l with
  | nil => simp at h1
  | cons p rest ih =>
    obtain ⟨x, y⟩ := p
    simp only [sessionUsersL, List.nodup_cons, List.mem_cons, not_or] at hnd
    obtain ⟨⟨hxy, hxS⟩, hyS, hS⟩ := hnd
    rcases List.mem_cons.mp h1 with e1 | m1 <;> rcases List.mem_cons.mp h2 with e2 | m2
    · rw [e1, e2]
    · exfalso
      have hvS : v ∈ sessionUsersL rest := mem_sessionUsersL.mpr ⟨q2, m2, hv2⟩
      rw [e1] at hv1
      rcases hv1 with hc | hc
      · simp only at hc
        subst hc
        exact hxS hvS
      · simp only at hc
        subst hc
        exact hyS hvS
    · exfalso
      have hvS : v ∈ sessionUsersL rest := mem_sessionUsersL.mpr ⟨q1, m1, hv1⟩
      rw [e2] at hv2
      rcases hv2 with hc | hc
      · simp only at hc
        subst hc
        exact hxS hvS
      · simp only at hc
        subst hc
        exact hyS hvS
    · exact ih hS m1 m2

theorem endSession_lookup_self (s : EngineState) (u : UserId) :
    lookupPartner (endSession s u) u = none := by
  apply lookupIn_none_of_not_mem
  intro hm
  obtain ⟨q, hq, hcomp⟩ := mem_sessionUsersL.mp hm
  obtain ⟨hq1, hq2⟩ := List.mem_filter.mp hq
  rcases hcomp with hc | hc
  · rw [hc] at hq2
    simp at hq2
  · rw [hc] at hq2
    simp at hq2

theorem endSession_lookup_partner {s : EngineState} {u p : UserId} (h : WF s)
    (hl : lookupPartner s u = some p) :
    lookupPartner (endSession s u) p = none := by
  apply lookupIn_none_of_not_mem
  intro hm
  obtain ⟨q, hq, hcomp⟩ := mem_sessionUsersL.mp hm
  obtain ⟨hq1, hq2⟩ := List.mem_filter.mp hq
  rcases lookupIn_mem hl with hup | hup
  · have hequ := unique_pair_of_nodup h.hsess hq1 hup hcomp (Or.inr rfl)
    rw [hequ] at hq2
    simp at hq2
  · have hequ := unique_pair_of_nodup h.hsess hq1 hup hcomp (Or.inl rfl)
    rw [hequ] at hq2
    simp at hq2

theorem processTracker_fst (env : JobEnv) (st : List TrackerRow × List Nat)
    (row : TrackerRow) :
    (processTracker env st row).1 =
      if delFlag env row then st.1.filter (fun r => r.id != row.id) else st.1 := by
  by_cases h1 : alertCond (env.scrape row.url) row.target_price = true <;>
    by_cases h2 : env.sendOk row.id = true <;>
      simp [processTracker, processTrackerRun, deliverAndPurge, delFlag, h1, h2]

theorem foldl_processTracker_mem (env : JobEnv) (r : TrackerRow) :
    ∀ (l : List TrackerRow) (st : List TrackerRow × List Nat),
      r ∈ (List.foldl (processTracker env) st l).1 ↔
        r ∈ st.1 ∧ ∀ q ∈ l, delFlag env q = true → q.id ≠ r.id := by
  intro l
  induction l with
  | nil =>
    intro st
    simp
  | cons q rest ih =>
    intro st
    rw [List.foldl_cons, ih]
    constructor
    · rintro ⟨hmem, hall⟩
      rw [processTracker_fst] at hmem
      by_cases hq : delFlag env q = true
      · rw [if_pos hq] at hmem
        obtain ⟨hm2, hne⟩ := List.mem_filter.mp hmem
        refine ⟨hm2, ?_⟩
        intro q2 hq2 hdel
        rcases List.mem_cons.mp hq2 with rfl | hq3
        · have hne2 : r.id ≠ q2.id := by simpa using hne
          exact fun hh => hne2 hh.symm
        · exact hall q2 hq3 hdel
      · rw [if_neg hq] at hmem
        refine ⟨hmem, ?_⟩
        intro q2 hq2 hdel
        rcases List.mem_cons.mp hq2 with rfl | hq3
        · exact absurd hdel hq
        · exact hall q2 hq3 hdel
    · rintro ⟨hmem, hall⟩
      refine ⟨?_, fun q2 hq2 hdel => hall q2 (List.mem_cons_of_mem _ hq2) hdel⟩
      rw [processTracker_fst]
      by_cases hq : delFlag env q = true
      · rw [if_pos hq]
        refine List.mem_filter.mpr ⟨hmem, ?_⟩
        have h2 := hall q (List.mem_cons_self _ _) hq
        simpa using h2.symm
      · rw [if_neg hq]
        exact hmem

theorem check_prices_job_mem (env : JobEnv) (db : List TrackerRow) (r : TrackerRow) :
    r ∈ (check_prices_job env db).1 ↔
      r ∈ db ∧ ∀ q ∈ db, delFlag env q = true → q.id ≠ r.id := by
  unfold check_prices_job
  exact foldl_processTracker_mem env r db (db, [])

theorem row_eq_of_id_eq {db : List TrackerRow} (hnd : (db.map TrackerRow.id).Nodup)
    {q r : TrackerRow} (hq : q ∈ db) (hr : r ∈ db) (h : q.id = r.id) : q = r :=
  List.inj_on_of_nodup_map hnd hq hr h

/-! ## Part 4: the claims -/

/-- C1: at every reachable state of the program, each user is in at most one
of the Waiting and InSession states — no user identifier is simultaneously
recorded in the waiting pool and in an active session; the operations of the
command surface (RequestPairing, Cancel, Stop, SendMessage) generate exactly
the reachable states, so each of them preserves this. -/
theorem C1_at_most_one_state (s : EngineState) (u : UserId) (h : Reachable s) :
    ¬(waiting s u = true ∧ inSession s u = true) := by
  rintro ⟨hw, hi⟩
  exact (reachable_wf h).hdisj u (waiting_iff.mp hw) (inSession_iff.mp hi)

/-- Witness for C1 at a concrete reachable state (one user enqueued). -/
theorem C1_at_most_one_state_witness :
    ¬(waiting (requestPairing initState 1 0).2 1 = true ∧
      inSession (requestPairing initState 1 0).2 1 = true) :=
  C1_at_most_one_state _ 1 (Reachable.pair initState 1 0 Reachable.init)

/-- C2: the session mapping is symmetric at every reachable state —
`lookupPartner a = some b` iff `lookupPartner b = some a`; reachability is
closure under every lifecycle operation, so each operation preserves the
biconditional. -/
theorem C2_lookup_symmetry (s : EngineState) (a b : UserId) (h : Reachable s) :
    lookupPartner s a = some b ↔ lookupPartner s b = some a := by
  have hwf := reachable_wf h
  constructor
  · intro hl
    rcases lookupIn_mem hl with hm | hm
    · exact (lookupIn_of_mem_nodup hwf.hsess hm).2
    · exact (lookupIn_of_mem_nodup hwf.hsess hm).1
  · intro hl
    rcases lookupIn_mem hl with hm | hm
    · exact (lookupIn_of_mem_nodup hwf.hsess hm).2
    · exact (lookupIn_of_mem_nodup hwf.hsess hm).1

/-- Witness for C2 at a concrete reachable state in which users 1 and 2 are
paired. -/
theorem C2_lookup_symmetry_witness :
    lookupPartner (requestPairing (requestPairing initState 1 0).2 2 0).2 1 = some 2 ↔
      lookupPartner (requestPairing (requestPairing initState 1 0).2 2 0).2 2 = some 1 :=
  C2_lookup_symmetry _ 1 2
    (Reachable.pair _ 2 0 (Reachable.pair initState 1 0 Reachable.init))

/-- C3: popCandidate returns `none` exactly on the empty pool; on success it
returns an entry of the maximal tier present (so no lower-tier entry is
served while a higher-tier entry waits, regardless of arrival order), and
removes precisely that entry — the first, hence oldest, entry of its tier;
with the pool in enqueue-timestamp order this is the oldest entry of the
highest non-empty tier (stable FIFO within a tier). -/
theorem C3_popCandidate_priority_fifo :
    popCandidate [] = none ∧
    (∀ pool : List WaitingEntry, pool ≠ [] → (popCandidate pool).isSome) ∧
    (∀ (pool : List WaitingEntry) (e : WaitingEntry) (r : List WaitingEntry),
      popCandidate pool = some (e, r) →
        e ∈ pool ∧ (∀ x ∈ pool, x.tier ≤ e.tier) ∧
        ∃ pre post, pool = pre ++ e :: post ∧ r = pre ++ post ∧
          ∀ x ∈ pre, x.tier < e.tier) ∧
    (∀ (pool : List WaitingEntry) (e : WaitingEntry) (r : List WaitingEntry),
      pool.Pairwise (fun a b => a.ts ≤ b.ts) → popCandidate pool = some (e, r) →
        ∀ x ∈ pool, x.tier = e.tier → e.ts ≤ x.ts) := by
  refine ⟨rfl, fun pool h => popCandidate_isSome h, ?_, ?_⟩
  · intro pool e r h
    obtain ⟨pre, post, h1, h2, h3, h4⟩ := popCandidate_spec h
    refine ⟨?_, ?_, pre, post, h1, h2, ?_⟩
    · rw [h1]
      exact List.mem_append.mpr (Or.inr (List.mem_cons_self _ _))
    · intro x hx
      rw [h3]
      exact tier_le_maxTier hx
    · intro x hxpre
      have hle : x.tier ≤ maxTier pool :=
        tier_le_maxTier (by rw [h1]; exact List.mem_append.mpr (Or.inl hxpre))
      have hne := h4 x hxpre
      rw [h3]
      omega
  · intro pool e r hsort h
    exact popCandidate_fifo hsort h

/-- Witness for C3: with a tier-0 entry enqueued before a tier-1 entry, the
tier-1 entry is popped first, it is the oldest of its tier, and the tier-0
entry remains. -/
theorem C3_popCandidate_priority_fifo_witness :
    (popCandidate [⟨1, 0, 0⟩, ⟨2, 1, 1⟩]).isSome ∧
    ((⟨2, 1, 1⟩ : WaitingEntry) ∈ ([⟨1, 0, 0⟩, ⟨2, 1, 1⟩] : List WaitingEntry) ∧
      (∀ x ∈ ([⟨1, 0, 0⟩, ⟨2, 1, 1⟩] : List WaitingEntry), x.tier ≤ 1) ∧
      ∃ pre post,
        ([⟨1, 0, 0⟩, ⟨2, 1, 1⟩] : List WaitingEntry) = pre ++ ⟨2, 1, 1⟩ :: post ∧
        [⟨1, 0, 0⟩] = pre ++ post ∧ ∀ x ∈ pre, x.tier < 1) ∧
    (∀ x ∈ ([⟨1, 0, 0⟩, ⟨2, 1, 1⟩] : List WaitingEntry), x.tier = 1 → 1 ≤ x.ts) :=
  ⟨C3_popCandidate_priority_fifo.2.1 _ (by decide),
   C3_popCandidate_priority_fifo.2.2.1 [⟨1, 0, 0⟩, ⟨2, 1, 1⟩] ⟨2, 1, 1⟩ [⟨1, 0, 0⟩] rfl,
   C3_popCandidate_priority_fifo.2.2.2 [⟨1, 0, 0⟩, ⟨2, 1, 1⟩] ⟨2, 1, 1⟩ [⟨1, 0, 0⟩]
     (by decide) rfl⟩

/-- C4: every error is surfaced as a locally returned value — the whole of
`extract_price` (try body plus both except clauses) never lets an exception
escape and always returns a float or `None`; network errors, HTTP errors and
parse failures all map to `None`; and one iteration of the periodic check
loop never lets an exception escape its body. -/
theorem C4_errors_are_values :
    (∀ env : FetchEnv, extractPriceFull env = Except.ok (extract_price env)) ∧
    (∀ (env : FetchEnv) (e : String), env.getResult = Except.error e →
      extract_price env = none) ∧
    (∀ (env : FetchEnv) (resp : HttpResponse), env.getResult = Except.ok resp →
      resp.statusOk = false → extract_price env = none) ∧
    (∀ (env : FetchEnv) (e : String), extractPriceRun env = Except.error e →
      extract_price env = none) ∧
    (∀ (env : JobEnv) (st : List TrackerRow × List Nat) (row : TrackerRow),
      processTrackerRun env st row = Except.ok (processTracker env st row)) := by
  refine ⟨?_, ?_, ?_, ?_, ?_⟩
  · intro env
    cases h : extractPriceRun env <;> simp [extractPriceFull, extract_price, h]
  · intro env e h
    simp [extract_price, extractPriceRun, h]
  · intro env resp h1 h2
    simp [extract_price, extractPriceRun, h1, h2]
  · intro env e h
    simp [extract_price, h]
  · intro env st row
    unfold processTracker processTrackerRun
    by_cases h1 : alertCond (env.scrape row.url) row.target_price = true <;>
      by_cases h2 : env.sendOk row.id = true <;>
        simp [deliverAndPurge, h1, h2]

/-- Witness for C4 at concrete environments: a raised network error, a
failed HTTP status and a raised parse error each yield `None`. -/
theorem C4_errors_are_values_witness :
    extract_price ⟨Except.error "timeout", fun _ => Except.error "x"⟩ = none ∧
    extract_price ⟨Except.ok ⟨"http://a", false, none, none, none⟩,
      fun _ => Except.error "x"⟩ = none ∧
    extract_price ⟨Except.ok ⟨"http://amazon.in/a", true, some "abc", none, none⟩,
      fun _ => Except.error "ValueError"⟩ = none :=
  ⟨C4_errors_are_values.2.1 _ "timeout" rfl,
   C4_errors_are_values.2.2.1 _ ⟨"http://a", false, none, none, none⟩ rfl rfl,
   C4_errors_are_values.2.2.2.1 _ "ValueError" rfl⟩

/-- C5 counterexample: in `check_prices_job` a failed alert send does not
tear down the associated record — with the alert condition met and the send
failing, the tracker row is left in the table, contradicting the claim that
a delivery failure always removes the affected record. -/
theorem C5_counterexample :
    (JobEnv.mk (fun _ => some 50) (fun _ => false)).scrape "http://amazon.in/a" =
      some 50 ∧
    ((50 : ℚ) ≤ 100) ∧
    (JobEnv.mk (fun _ => some 50) (fun _ => false)).sendOk 1 = false ∧
    (check_prices_job (JobEnv.mk (fun _ => some 50) (fun _ => false))
        [⟨1, 7, "http://amazon.in/a", 100, "Amazon"⟩]).1 =
      [⟨1, 7, "http://amazon.in/a", 100, "Amazon"⟩] := by
  refine ⟨rfl, by norm_num, rfl, ?_⟩
  rfl

/-- C5 amended: in the relay engine a delivery failure or timeout is indeed
self-healing — the session is torn down (both partner lookups become empty)
in the same operation that reports `DeliveryFailure`; in `check_prices_job`,
however, a failed alert send leaves the tracker row in place, to be retried
on the next cycle, rather than removing it. -/
theorem C5_failure_teardown_amended :
    (∀ (s : EngineState) (u p : UserId), Reachable s → lookupPartner s u = some p →
      (sendMessage s u false).1 = RelayResult.deliveryFailure p ∧
      lookupPartner (sendMessage s u false).2 u = none ∧
      lookupPartner (sendMessage s u false).2 p = none) ∧
    (∀ (env : JobEnv) (db : List TrackerRow) (row : TrackerRow),
      (db.map TrackerRow.id).Nodup → row ∈ db → env.sendOk row.id = false →
      row ∈ (check_prices_job env db).1) := by
  constructor
  · intro s u p hreach hl
    have hwf := reachable_wf hreach
    have hstep : sendMessage s u false = (.deliveryFailure p, endSession s u) := by
      simp [sendMessage, hl]
    rw [hstep]
    exact ⟨rfl, endSession_lookup_self s u, endSession_lookup_partner hwf hl⟩
  · intro env db row hnd hrow hfail
    rw [check_prices_job_mem]
    refine ⟨hrow, fun q hq hdq => ?_⟩
    intro hideq
    have heqr : q = row := row_eq_of_id_eq hnd hq hrow hideq
    rw [heqr] at hdq
    simp only [delFlag, Bool.and_eq_true] at hdq
    obtain ⟨-, hsend⟩ := hdq
    rw [hfail] at hsend
    exact Bool.false_ne_true hsend

/-- Witness for the amended C5: the relay part at a concrete reachable
paired state, and the job part at a concrete table with a failing send. -/
theorem C5_failure_teardown_amended_witness :
    ((sendMessage (requestPairing (requestPairing initState 1 0).2 2 0).2 1 false).1 =
        RelayResult.deliveryFailure 2 ∧
      lookupPartner
        (sendMessage (requestPairing (requestPairing initState 1 0).2 2 0).2 1 false).2
        1 = none ∧
      lookupPartner
        (sendMessage (requestPairing (requestPairing initState 1 0).2 2 0).2 1 false).2
        2 = none) ∧
    (⟨1, 7, "http://amazon.in/a", 100, "Amazon"⟩ : TrackerRow) ∈
      (check_prices_job (JobEnv.mk (fun _ => some 50) (fun _ => false))
        [⟨1, 7, "http://amazon.in/a", 100, "Amazon"⟩]).1 :=
  ⟨C5_failure_teardown_amended.1 _ 1 2
      (Reachable.pair _ 2 0 (Reachable.pair initState 1 0 Reachable.init)) rfl,
   C5_failure_teardown_amended.2 (JobEnv.mk (fun _ => some 50) (fun _ => false))
      [⟨1, 7, "http://amazon.in/a", 100, "Amazon"⟩]
      ⟨1, 7, "http://amazon.in/a", 100, "Amazon"⟩
      (by decide) (List.mem_singleton.mpr rfl) rfl⟩

/-- C6: every error other than delivery failure is advisory and leaves state
unchanged — the engine's typed rejections (`AlreadyWaiting`,
`AlreadyInSession`, `NotActive`, `NotInSession`) return the state untouched,
and `handle_text` on invalid input (a non-numeric reply while a target price
is awaited, text with no URL, or a URL of an unsupported domain) replies
with an error message while the per-user conversational state and the stored
tracker records stay exactly as they were. -/
theorem C6_advisory_errors_frame :
    (∀ (s : EngineState) (u : UserId) (t : Nat), waiting s u = true →
      requestPairing s u t = (PairResult.errAlreadyWaiting, s)) ∧
    (∀ (s : EngineState) (u : UserId) (t : Nat), waiting s u = false →
      inSession s u = true →
      requestPairing s u t = (PairResult.errAlreadyInSession, s)) ∧
    (∀ (s : EngineState) (u : UserId), waiting s u = false →
      cancel s u = (CancelResult.notActive, s)) ∧
    (∀ (s : EngineState) (u : UserId), waiting s u = false →
      lookupPartner s u = none → stop s u = (StopResult.notActive, s)) ∧
    (∀ (s : EngineState) (u : UserId) (ok : Bool), lookupPartner s u = none →
      sendMessage s u ok = (RelayResult.errNotInSession, s)) ∧
    (∀ (env : HandleEnv) (uid : Nat) (text url plat : String)
        (price : Option ℚ) (db : Db),
      env.pyFloat (pyStrip text) = none →
      handle_text env uid text (UserData.awaiting url plat price) db =
        (UserData.awaiting url plat price, db, [Reply.syntaxError])) ∧
    (∀ (env : HandleEnv) (uid : Nat) (text : String) (db : Db),
      findUrlL (pyStrip text).data = none →
      handle_text env uid text UserData.idle db =
        (UserData.idle, db, [Reply.awaitingInput])) ∧
    (∀ (env : HandleEnv) (uid : Nat) (text : String) (db : Db) (u : List Char),
      findUrlL (pyStrip text).data = some u → platformOf u = none →
      handle_text env uid text UserData.idle db =
        (UserData.idle, db, [Reply.rejection])) := by
  refine ⟨?_, ?_, ?_, ?_, ?_, ?_, ?_, ?_⟩
  · intro s u t h
    simp [requestPairing, h]
  · intro s u t h1 h2
    simp [requestPairing, h1, h2]
  · intro s u h
    simp [cancel, h]
  · intro s u h1 h2
    simp [stop, h1, h2]
  · intro s u ok h
    simp [sendMessage, h]
  · intro env uid text url plat price db h
    simp [handle_text, h]
  · intro env uid text db h
    simp [handle_text, h]
  · intro env uid text db u h1 h2
    simp [handle_text, h1, h2]

/-- Witness for C6 at concrete states and inputs: each advisory error leaves
the state it found. -/
theorem C6_advisory_errors_frame_witness :
    requestPairing ⟨[⟨1, 0, 0⟩], [], 1⟩ 1 5 =
      (PairResult.errAlreadyWaiting, ⟨[⟨1, 0, 0⟩], [], 1⟩) ∧
    requestPairing ⟨[], [(1, 2)], 0⟩ 1 5 =
      (PairResult.errAlreadyInSession, ⟨[], [(1, 2)], 0⟩) ∧
    cancel initState 0 = (CancelResult.notActive, initState) ∧
    stop initState 0 = (StopResult.notActive, initState) ∧
    sendMessage initState 0 true = (RelayResult.errNotInSession, initState) ∧
    handle_text ⟨fun _ => none, fun _ => none⟩ 0 "abc"
        (UserData.awaiting "http://amzn.in/x" "Amazon" none) ⟨[], 0⟩ =
      (UserData.awaiting "http://amzn.in/x" "Amazon" none, ⟨[], 0⟩,
        [Reply.syntaxError]) ∧
    handle_text ⟨fun _ => none, fun _ => none⟩ 0 "hello" UserData.idle ⟨[], 0⟩ =
      (UserData.idle, ⟨[], 0⟩, [Reply.awaitingInput]) ∧
    handle_text ⟨fun _ => none, fun _ => none⟩ 0 "http://x.com" UserData.idle ⟨[], 0⟩ =
      (UserData.idle, ⟨[], 0⟩, [Reply.rejection]) :=
  ⟨C6_advisory_errors_frame.1 _ 1 5 rfl,
   C6_advisory_errors_frame.2.1 _ 1 5 rfl rfl,
   C6_advisory_errors_frame.2.2.1 _ 0 rfl,
   C6_advisory_errors_frame.2.2.2.1 _ 0 rfl rfl,
   C6_advisory_errors_frame.2.2.2.2.1 _ 0 true rfl,
   C6_advisory_errors_frame.2.2.2.2.2.1 _ 0 "abc" "http://amzn.in/x" "Amazon" none _ rfl,
   C6_advisory_errors_frame.2.2.2.2.2.2.1 _ 0 "hello" _ rfl,
   C6_advisory_errors_frame.2.2.2.2.2.2.2 _ 0 "http://x.com" ⟨[], 0⟩
     ("http://x.com").data rfl rfl⟩

/-- C7 counterexample: not every suspension point of `main.py` carries an
explicit timeout — the Telegram alert send in `check_prices_job` (line 261)
passes none, so the universally quantified claim fails on the code. -/
theorem C7_counterexample :
    suspensionPoints.all (fun p => p.explicitTimeout.isSome) = false ∧
    SuspensionPoint.mk "check_prices_job:bot.send_message" none ∈ suspensionPoints := by
  constructor
  · rfl
  · simp [suspensionPoints]

/-- C7 amended: the scraper's outbound HTTP request is the one suspension
point with an explicit timeout (20 seconds), and its expiry — a raised
`RequestException` — yields the defined failure result `None`; in the
spec-modelled relay engine a delivery timeout likewise has the defined
outcome `DeliveryFailure` with session teardown; the remaining suspension
points (Telegram sends, SQLite connections) pass no explicit timeout in the
code. -/
theorem C7_timeouts_amended :
    SuspensionPoint.mk "extract_price:session.get" (some 20) ∈ suspensionPoints ∧
    (∀ (env : FetchEnv) (e : String), env.getResult = Except.error e →
      extract_price env = none) ∧
    (∀ (s : EngineState) (u p : UserId), lookupPartner s u = some p →
      sendMessage s u false = (RelayResult.deliveryFailure p, endSession s u)) := by
  refine ⟨by simp [suspensionPoints], ?_, ?_⟩
  · intro env e h
    simp [extract_price, extractPriceRun, h]
  · intro s u p h
    simp [sendMessage, h]

/-- Witness for the amended C7: a concrete raised timeout yields `None`, and
a concrete paired state is torn down on delivery failure. -/
theorem C7_timeouts_amended_witness :
    extract_price ⟨Except.error "ReadTimeout", fun _ => Except.error "x"⟩ = none ∧
    sendMessage ⟨[], [(3, 4)], 0⟩ 3 false =
      (RelayResult.deliveryFailure 4, endSession ⟨[], [(3, 4)], 0⟩ 3) :=
  ⟨C7_timeouts_amended.2.1 _ "ReadTimeout" rfl,
   C7_timeouts_amended.2.2 ⟨[], [(3, 4)], 0⟩ 3 4 rfl⟩

/-- C8 counterexample: a text can contain an http(s) URL of a recognized
platform and still set no pending state — the regex takes the first URL in
the text, so "http://x.com http://amazon.in/a" is rejected even though it
contains an Amazon URL. -/
theorem C8_counterexample :
    anyUrlSat recognizedUrl ("http://x.com http://amazon.in/a").data = true ∧
    handle_text ⟨fun _ => none, fun _ => none⟩ 0 "http://x.com http://amazon.in/a"
        UserData.idle ⟨[], 0⟩ =
      (UserData.idle, ⟨[], 0⟩, [Reply.rejection]) := by
  constructor
  · rfl
  · rfl

/-- C8 amended: while no target price is awaited, `handle_text` enters the
awaiting-price state iff the first http(s) URL found in the text is
recognized — its lowercased form containing "amazon"/"amzn" classifies as
"Amazon" (checked first), else containing "flipkart"/"fktr" classifies as
"Flipkart"; text with no URL, or whose first URL is of any other domain,
produces only a reply and sets no pending state. -/
theorem C8_first_url_platform_amended :
    (∀ (env : HandleEnv) (uid : Nat) (text : String) (db : Db),
      isAwaiting (handle_text env uid text UserData.idle db).1 = true ↔
        ∃ u, findUrlL (pyStrip text).data = some u ∧ (platformOf u).isSome = true) ∧
    (∀ (env : HandleEnv) (uid : Nat) (text : String) (db : Db) (u : List Char)
        (plat : String),
      findUrlL (pyStrip text).data = some u → platformOf u = some plat →
      handle_text env uid text UserData.idle db =
        (UserData.awaiting ⟨u⟩ plat (env.scrape ⟨u⟩), db,
          [Reply.prompt plat (displayPrice (env.scrape ⟨u⟩))])) ∧
    (∀ (env : HandleEnv) (uid : Nat) (text : String) (db : Db),
      findUrlL (pyStrip text).data = none →
      handle_text env uid text UserData.idle db =
        (UserData.idle, db, [Reply.awaitingInput])) ∧
    (∀ (env : HandleEnv) (uid : Nat) (text : String) (db : Db) (u : List Char),
      findUrlL (pyStrip text).data = some u → platformOf u = none →
      handle_text env uid text UserData.idle db =
        (UserData.idle, db, [Reply.rejection])) ∧
    (∀ u : List Char, amazonish u = true → platformOf u = some "Amazon") ∧
    (∀ u : List Char, flipkartish u = true → amazonish u = false →
      platformOf u = some "Flipkart") := by
  refine ⟨?_, ?_, ?_, ?_, ?_, ?_⟩
  · intro env uid text db
    cases hf : findUrlL (pyStrip text).data with
    | none => simp [handle_text, hf, isAwaiting]
    | some u =>
      cases hp : platformOf u with
      | none => simp [handle_text, hf, hp, isAwaiting]
      | some plat => simp [handle_text, hf, hp, isAwaiting]
  · intro env uid text db u plat h1 h2
    simp [handle_text, h1, h2]
  · intro env uid text db h
    simp [handle_text, h]
  · intro env uid text db u h1 h2
    simp [handle_text, h1, h2]
  · intro u h
    unfold amazonish at h
    unfold platformOf
    rw [if_pos h]
  · intro u h1 h2
    unfold flipkartish at h1
    unfold amazonish at h2
    unfold platformOf
    rw [if_neg ?_, if_pos h1]
    rw [h2]
    exact Bool.false_ne_true

/-- Witness for the amended C8: a lone Amazon shortlink enters the awaiting
state with platform "Amazon"; plain text sets nothing. -/
theorem C8_first_url_platform_amended_witness :
    handle_text ⟨fun _ => none, fun _ => none⟩ 0 "http://amzn.in/x"
        UserData.idle ⟨[], 0⟩ =
      (UserData.awaiting ⟨("http://amzn.in/x").data⟩ "Amazon" none, ⟨[], 0⟩,
        [Reply.prompt "Amazon" (displayPrice none)]) ∧
    handle_text ⟨fun _ => none, fun _ => none⟩ 0 "no link here"
        UserData.idle ⟨[], 0⟩ =
      (UserData.idle, ⟨[], 0⟩, [Reply.awaitingInput]) ∧
    platformOf ("http://amzn.in/x").data = some "Amazon" :=
  ⟨C8_first_url_platform_amended.2.1 ⟨fun _ => none, fun _ => none⟩ 0 "http://amzn.in/x"
      ⟨[], 0⟩ ("http://amzn.in/x").data "Amazon" rfl rfl,
   C8_first_url_platform_amended.2.2.1 ⟨fun _ => none, fun _ => none⟩ 0 "no link here"
      ⟨[], 0⟩ rfl,
   C8_first_url_platform_amended.2.2.2.2.1 ("http://amzn.in/x").data rfl⟩

/-- C9: `check_prices_job` deletes a tracker row exactly when the scrape for
that row returned a price that is non-`None`, non-zero and at most the
target, and the alert send succeeded; in particular, when the send raises,
the row remains in the table (teardown is atomic with successful
notification).  Row ids are unique by the table's AUTOINCREMENT primary
key. -/
theorem C9_delete_iff_alert_sent (env : JobEnv) (db : List TrackerRow)
    (row : TrackerRow) (hnd : (db.map TrackerRow.id).Nodup) (hrow : row ∈ db) :
    row ∉ (check_prices_job env db).1 ↔
      ∃ p, env.scrape row.url = some p ∧ p ≠ 0 ∧ p ≤ row.target_price ∧
        env.sendOk row.id = true := by
  rw [check_prices_job_mem]
  constructor
  · intro hnot
    by_cases hdel : delFlag env row = true
    · simp only [delFlag, Bool.and_eq_true] at hdel
      obtain ⟨hac, hsend⟩ := hdel
      cases hcp : env.scrape row.url with
      | none =>
        rw [hcp] at hac
        simp [alertCond] at hac
      | some p =>
        rw [hcp] at hac
        simp only [alertCond, truthyF, Bool.and_eq_true] at hac
        obtain ⟨hp0, hple⟩ := hac
        exact ⟨p, rfl, by simpa using hp0, by simpa using hple, hsend⟩
    · exfalso
      apply hnot
      refine ⟨hrow, fun q hq hdq => ?_⟩
      intro hideq
      exact hdel (by rwa [row_eq_of_id_eq hnd hq hrow hideq] at hdq)
  · rintro ⟨p, hcp, hp0, hple, hsend⟩ hcontra
    obtain ⟨-, hall⟩ := hcontra
    refine hall row hrow ?_ rfl
    simp [delFlag, alertCond, truthyF, hcp, hp0, hple, hsend]

/-- Witness for C9 at a concrete table: with a successful send and a met
condition the row is purged (the iff's right side holds). -/
theorem C9_delete_iff_alert_sent_witness :
    (⟨1, 7, "http://amzn.in/x", 100, "Amazon"⟩ : TrackerRow) ∉
      (check_prices_job (JobEnv.mk (fun _ => some 50) (fun _ => true))
        [⟨1, 7, "http://amzn.in/x", 100, "Amazon"⟩]).1 ↔
      ∃ p, (JobEnv.mk (fun _ => some 50) (fun _ => true)).scrape "http://amzn.in/x" =
          some p ∧ p ≠ 0 ∧ p ≤ 100 ∧
        (JobEnv.mk (fun _ => some 50) (fun _ => true)).sendOk 1 = true :=
  C9_delete_iff_alert_sent (JobEnv.mk (fun _ => some 50) (fun _ => true))
    [⟨1, 7, "http://amzn.in/x", 100, "Amazon"⟩]
    ⟨1, 7, "http://amzn.in/x", 100, "Amazon"⟩
    (by decide) (List.mem_singleton.mpr rfl)

/-- C10: a scraped price of exactly 0 is indistinguishable from a missing
price at every use site — `check_prices_job` neither alerts nor deletes for
a 0 price (exactly as for `None`), and `handle_text` renders a 0 price with
the failed-fetch prompt and omits it from the confirmation, exactly as it
renders `None`. -/
theorem C10_zero_price_is_missing :
    (∀ (env : JobEnv) (st : List TrackerRow × List Nat) (row : TrackerRow),
      env.scrape row.url = some 0 → processTracker env st row = st) ∧
    (∀ (env : JobEnv) (st : List TrackerRow × List Nat) (row : TrackerRow),
      env.scrape row.url = none → processTracker env st row = st) ∧
    (∀ (env : HandleEnv) (uid : Nat) (text : String) (db : Db) (u : List Char)
        (plat : String),
      findUrlL (pyStrip text).data = some u → platformOf u = some plat →
      env.scrape ⟨u⟩ = some 0 →
      (handle_text env uid text UserData.idle db).2.2 = [Reply.prompt plat none]) ∧
    (∀ (env : HandleEnv) (uid : Nat) (text url plat : String) (db : Db),
      (handle_text env uid text (UserData.awaiting url plat (some 0)) db).2 =
        (handle_text env uid text (UserData.awaiting url plat none) db).2) := by
  refine ⟨?_, ?_, ?_, ?_⟩
  · intro env st row h
    simp [processTracker, processTrackerRun, alertCond, truthyF, h]
  · intro env st row h
    simp [processTracker, processTrackerRun, alertCond, h]
  · intro env uid text db u plat h1 h2 h3
    simp [handle_text, h1, h2, h3, displayPrice]
  · intro env uid text url plat db
    cases hf : env.pyFloat (pyStrip text) with
    | none => simp [handle_text, hf]
    | some target => simp [handle_text, hf, displayPrice]

/-- Witness for C10: a concrete 0-price scrape changes nothing in the job
and renders as a failed fetch in the prompt. -/
theorem C10_zero_price_is_missing_witness :
    processTracker (JobEnv.mk (fun _ => some 0) (fun _ => true))
      ([⟨1, 7, "http://amzn.in/x", 100, "Amazon"⟩], [])
      ⟨1, 7, "http://amzn.in/x", 100, "Amazon"⟩ =
      ([⟨1, 7, "http://amzn.in/x", 100, "Amazon"⟩], []) ∧
    processTracker (JobEnv.mk (fun _ => none) (fun _ => true))
      ([⟨1, 7, "http://amzn.in/x", 100, "Amazon"⟩], [])
      ⟨1, 7, "http://amzn.in/x", 100, "Amazon"⟩ =
      ([⟨1, 7, "http://amzn.in/x", 100, "Amazon"⟩], []) ∧
    (handle_text ⟨fun _ => none, fun _ => some 0⟩ 0 "http://amzn.in/x"
        UserData.idle ⟨[], 0⟩).2.2 = [Reply.prompt "Amazon" none] :=
  ⟨C10_zero_price_is_missing.1 (JobEnv.mk (fun _ => some 0) (fun _ => true)) _ _ rfl,
   C10_zero_price_is_missing.2.1 (JobEnv.mk (fun _ => none) (fun _ => true)) _ _ rfl,
   C10_zero_price_is_missing.2.2.1 ⟨fun _ => none, fun _ => some 0⟩ 0 "http://amzn.in/x"
     ⟨[], 0⟩ ("http://amzn.in/x").data "Amazon" rfl rfl rfl⟩
